import Mathlib

set_option maxRecDepth 2000

/-
Verification of the symbolic reasoning engine and the integration layer of the
AGI repository.

The model is a shallow embedding of the JavaScript sources:
  * the `ReasoningEngine` class (rules, facts, uncertainties, reasoning history,
    forward / backward / abductive chaining);
  * the `IntegrationLayer` confidence-assessment pipeline.

Modelling conventions, shared by all definitions below:
  * JavaScript numbers are modelled as rationals (`ℚ`).  The only numeric
    operations the code performs are +, -, *, /, min, max and comparisons,
    all exact on the values that appear, so `ℚ` is a faithful idealization.
  * JavaScript `Map` (insertion ordered, `set` overwrites in place) is an
    association list `List (String × α)` with `mapSet` / `mapGet`.
  * JavaScript `Set` (insertion ordered, `add` appends when absent) is a
    duplicate-free `List String` with `addIfAbsent` / `hasStr`.
  * `a || b` on numbers (where `0` and `undefined` are falsy) is `jsOr`.
  * wall-clock timestamps and console logging are not modelled.
-/

namespace AGI

/-- jsOr models the JavaScript expression `a || b` for a possibly-absent
numeric `a`: `undefined` and `0` are falsy, every other number is truthy. -/
def jsOr (v : Option ℚ) (d : ℚ) : ℚ :=
  match v with
  | some x => if x = 0 then d else x
  | none => d

/-- clamp01 models `Math.max(0, Math.min(1, x))`. -/
def clamp01 (x : ℚ) : ℚ := max 0 (min 1 x)

/-- mapGet models JavaScript `Map.prototype.get` on an association list. -/
def mapGet {α : Type} (k : String) : List (String × α) → Option α
  | [] => none
  | p :: rest => if p.1 = k then some p.2 else mapGet k rest

/-- mapSet models JavaScript `Map.prototype.set`: overwrite in place if the
key is present, append otherwise (insertion order is preserved). -/
def mapSet {α : Type} (k : String) (v : α) : List (String × α) → List (String × α)
  | [] => [(k, v)]
  | p :: rest => if p.1 = k then (k, v) :: rest else p :: mapSet k v rest

/-- hasStr models JavaScript `Set.prototype.has` on a list of strings. -/
def hasStr : List String → String → Bool
  | [], _ => false
  | y :: ys, x => (y = x) || hasStr ys x

/-- addIfAbsent models JavaScript `Set.prototype.add`: a new element is
appended at the end, an existing element leaves the set unchanged. -/
def addIfAbsent (x : String) (l : List String) : List String :=
  if hasStr l x then l else l ++ [x]

/-- isPrefixCL decides whether the first character list is a prefix of the
second. -/
def isPrefixCL : List Char → List Char → Bool
  | [], _ => true
  | _ :: _, [] => false
  | a :: as, b :: bs => (a = b) && isPrefixCL as bs

/-- startsWithQ models JavaScript `String.prototype.startsWith`. -/
def startsWithQ (s pre : String) : Bool := isPrefixCL pre.data s.data

/-- replaceFirstCL replaces the first occurrence of `pat` in the subject by
`val`, the semantics of JavaScript `String.prototype.replace` with a string
pattern (only the first occurrence is replaced; an empty pattern matches at
position 0). -/
def replaceFirstCL (pat val : List Char) : List Char → List Char
  | [] => if pat.isEmpty then val else []
  | c :: cs =>
      if isPrefixCL pat (c :: cs) then val ++ (c :: cs).drop pat.length
      else c :: replaceFirstCL pat val cs

/-- replaceFirstQ models JavaScript `s.replace(pat, val)` with a string
pattern. -/
def replaceFirstQ (s pat val : String) : String :=
  String.mk (replaceFirstCL pat.data val.data s.data)

/-- containsSubCL decides whether `pat` occurs as a contiguous sublist. -/
def containsSubCL (pat : List Char) : List Char → Bool
  | [] => pat.isEmpty
  | c :: cs => isPrefixCL pat (c :: cs) || containsSubCL pat cs

/-- containsSubQ models JavaScript `String.prototype.includes`. -/
def containsSubQ (s pat : String) : Bool := containsSubCL pat.data s.data

/-- joinSep models JavaScript `Array.prototype.join` with a separator. -/
def joinSep (sep : String) : List String → String
  | [] => ""
  | [x] => x
  | x :: rest => x ++ sep ++ joinSep sep rest

/-- fmtFixed models JavaScript `Number.prototype.toFixed(nd)` idealized over
`ℚ`: round to `nd` decimal places (half away handled as half up) and render
with exactly `nd` fractional digits.  Only used to build trace strings. -/
def fmtFixed (nd : Nat) (q : ℚ) : String :=
  let m : ℚ := ((10 ^ nd : ℕ) : ℚ)
  let scaled : ℤ := ⌊q * m + 1/2⌋
  let sign := if scaled < 0 then "-" else ""
  let a := scaled.natAbs
  let ip := a / 10 ^ nd
  let fp := a % 10 ^ nd
  let s := toString fp
  let pad := String.mk (List.replicate (nd - s.length) '0') ++ s
  if nd = 0 then sign ++ toString ip else sign ++ toString ip ++ "." ++ pad

/-- Rule models a rule object of the reasoning engine.  `confidence` is
optional because the built-in `uncertainty_propagation` rule carries a
`confidence_calculation` function instead of a numeric `confidence`; the
source never reads `confidence_calculation`, but the field is kept for
fidelity.  `addRule` fills `name`, `usage_count` and `success_rate`. -/
structure Rule where
  name : String := ""
  pattern : List String
  conclusion : String
  confidence : Option ℚ := none
  confidence_calculation : Option (ℚ → ℚ → ℚ) := none
  usage_count : ℕ := 0
  success_rate : ℚ := 1

/-- Explanation is one abductive candidate explanation. -/
structure Explanation where
  rule : String
  premises : List String
  confidence : ℚ
  plausibility : ℚ
deriving DecidableEq

/-- ReasoningResult models the result object returned by the three chaining
methods.  The JavaScript objects have per-method shapes; absent fields keep
their defaults here. -/
structure ReasoningResult where
  conclusion : String
  found : Bool
  confidence : ℚ
  steps : List String := []
  appliedRules : List String := []
  iterations : ℕ := 0
  explanations : List Explanation := []
  method : String := ""
deriving DecidableEq

/-- HistoryEntry models one record of `reasoning_history` (the wall-clock
`timestamp` field is outside the model). -/
structure HistoryEntry where
  premises : List String
  goal : String
  method : String
  result : ReasoningResult

/-- ReasoningEngine models the mutable state of the `ReasoningEngine` class:
`rules` and `uncertainties` are JavaScript Maps, `facts` a JavaScript Set. -/
structure ReasoningEngine where
  rules : List (String × Rule) := []
  facts : List String := []
  uncertainties : List (String × ℚ) := []
  reasoning_history : List HistoryEntry := []

/-- addRule registers a rule: the stored object is the given rule extended
with its name, a zero usage count and success rate 1.0. -/
def addRule (eng : ReasoningEngine) (name : String) (rule : Rule) : ReasoningEngine :=
  let stored : Rule := { rule with name := name, usage_count := 0, success_rate := 1 }
  { eng with rules := mapSet name stored eng.rules }

/-- addFact inserts/overwrites a fact and its confidence.  The JavaScript
default argument `confidence = 1.0` is made explicit at call sites. -/
def addFact (eng : ReasoningEngine) (fact : String) (confidence : ℚ) : ReasoningEngine :=
  { eng with facts := addIfAbsent fact eng.facts,
             uncertainties := mapSet fact confidence eng.uncertainties }

/-- loadBasicRules registers the five built-in rules. -/
def loadBasicRules (eng : ReasoningEngine) : ReasoningEngine :=
  let e1 := addRule eng "modus_ponens"
    { pattern := ["?P → ?Q", "?P"], conclusion := "?Q", confidence := some 0.95 }
  let e2 := addRule e1 "modus_tollens"
    { pattern := ["?P → ?Q", "¬?Q"], conclusion := "¬?P", confidence := some 0.95 }
  let e3 := addRule e2 "hypothetical_syllogism"
    { pattern := ["?P → ?Q", "?Q → ?R"], conclusion := "?P → ?R", confidence := some 0.9 }
  let e4 := addRule e3 "uncertainty_propagation"
    { pattern := ["?P", "confidence(?P) = ?C1", "?P → ?Q", "confidence(?P → ?Q) = ?C2"],
      conclusion := "?Q", confidence_calculation := some (fun c1 c2 => c1 * c2) }
  addRule e4 "causal_inference"
    { pattern := ["cause(?X, ?Y)", "observed(?X)"], conclusion := "likely(?Y)",
      confidence := some 0.7 }

/-- initEngine is a freshly constructed engine after `initialize()` (which
loads the basic rules; its console logging is not modelled). -/
def initEngine : ReasoningEngine := loadBasicRules {}

/-- clear models `clear()`: facts and uncertainties are emptied, rules and
history are untouched. -/
def clear (eng : ReasoningEngine) : ReasoningEngine :=
  { eng with facts := [], uncertainties := [] }

/-- unify models the simplified unification: verbatim equality binds nothing;
a pattern starting with `?` binds the whole pattern token to the fact;
anything else fails.  `some []` is the JavaScript `{}` (truthy). -/
def unify (pattern fact : String) : Option (List (String × String)) :=
  if pattern = fact then some []
  else if startsWithQ pattern "?" then some [(pattern, fact)]
  else none

/-- instantiateConclusion substitutes every binding into the conclusion, one
`String.replace` (first occurrence only) per binding, in insertion order. -/
def instantiateConclusion (conclusion : String) (bindings : List (String × String)) : String :=
  bindings.foldl (fun result p => replaceFirstQ result p.1 p.2) conclusion

/-- allPremisesSatisfied checks that every premise, after substitution (or
verbatim), is present in the fact set. -/
def allPremisesSatisfied (pattern : List String) (facts : List String)
    (bindings : List (String × String)) : Bool :=
  pattern.all (fun premise =>
    hasStr facts (instantiateConclusion premise bindings) || hasStr facts premise)

/-- matchRule models the engine's `matchRule`: for each fact, unify it with
the first premise pattern and keep the binding when every premise is then
satisfied.  A rule with an empty premise list would make the JavaScript
crash on `pattern[0].startsWith` (a TypeError); the model returns no matches
there, and every general theorem below restricts to rules with non-empty
premise lists, where the model and the source agree. -/
def matchRule (rule : Rule) (facts : List String) : List (List (String × String) × String) :=
  match rule.pattern with
  | [] => []
  | p0 :: _ =>
    facts.filterMap (fun fact =>
      match unify p0 fact with
      | some bindings =>
          if allPremisesSatisfied rule.pattern facts bindings then some (bindings, fact)
          else none
      | none => none)

/-- minimumQ is `Math.min` over a head element and a tail list. -/
def minimumQ (x : ℚ) (l : List ℚ) : ℚ := l.foldl min x

/-- calculateConfidence models the confidence calculator: rule base
confidence (`rule.confidence || 1.0`), times the minimum premise confidence
(`uncertainties.get(instantiated) || uncertainties.get(premise) || 0.5`),
times the rule success rate, clamped to [0,1].  The JavaScript receives the
whole match object and the live fact set but reads only `match.bindings`
and `this.uncertainties`, so the model takes the bindings directly.  On an
empty premise list the JavaScript `Math.min()` is `Infinity`; the model
returns the clamped base confidence there, and every theorem that touches
this function restricts to non-empty premise lists. -/
def calculateConfidence (rule : Rule) (bindings : List (String × String))
    (uncertainties : List (String × ℚ)) : ℚ :=
  let baseConfidence := jsOr rule.confidence 1
  let premiseConfidences := rule.pattern.map (fun p =>
    jsOr (mapGet (instantiateConclusion p bindings) uncertainties)
      (jsOr (mapGet p uncertainties) 0.5))
  let combined :=
    match premiseConfidences with
    | [] => baseConfidence
    | c :: cs => baseConfidence * minimumQ c cs
  clamp01 (combined * rule.success_rate)

/-- matchesConclusion checks a rule conclusion against a goal: verbatim
equality or a successful unification. -/
def matchesConclusion (pattern goal : String) : Bool :=
  (pattern = goal) || (unify pattern goal).isSome

/-- entails is the engine's entailment check: exact string equality. -/
def entails (conclusion goal : String) : Bool := conclusion = goal

/-- assessPlausibility multiplies 1.0 per known premise, 0.1 per premise
whose negation `¬premise` is known, and 0.5 per unknown premise. -/
def assessPlausibility (eng : ReasoningEngine) (premises : List String) : ℚ :=
  premises.foldl (fun plausibility premise =>
    if hasStr eng.facts premise then plausibility * 1
    else if hasStr eng.facts ("¬" ++ premise) then plausibility * 0.1
    else plausibility * 0.5) 1

/-- findCausalExplanations proposes, when the observation contains the
substring "effect", the observation with its first "effect" replaced by
"cause" as a causal explanation. -/
def findCausalExplanations (observation : String) : List Explanation :=
  if containsSubQ observation "effect" then
    [{ rule := "causal_inference",
       premises := [replaceFirstQ observation "effect" "cause"],
       confidence := 0.6, plausibility := 0.7 }]
  else []

/-- FCState is the working state of `forwardChain`: the engine's live rule
map (usage counts are bumped in place) and uncertainty map, the local
`derivedFacts` working set, the trace lists, and the per-pass
`newFactsAdded` flag. -/
structure FCState where
  rules : List (String × Rule)
  uncertainties : List (String × ℚ)
  derivedFacts : List String
  steps : List String
  appliedRules : List String
  newFactsAdded : Bool

/-- bumpUsage models `rule.usage_count++` on the live rule map. -/
def bumpUsage (name : String) : List (String × Rule) → List (String × Rule)
  | [] => []
  | p :: rest =>
      if p.1 = name then (p.1, { p.2 with usage_count := p.2.usage_count + 1 }) :: rest
      else p :: bumpUsage name rest

/-- fcDerive is the block of mutations performed when a match yields a new
conclusion in the forward pass: add it to the working fact set, record its
computed confidence, push a trace line, mark the pass productive, and bump
the rule's usage count. -/
def fcDerive (ruleName : String) (rule : Rule) (m : List (String × String) × String)
    (st : FCState) : FCState :=
  let conclusion := instantiateConclusion rule.conclusion m.1
  let confidence := calculateConfidence rule m.1 st.uncertainties
  { st with
    derivedFacts := st.derivedFacts ++ [conclusion],
    uncertainties := mapSet conclusion confidence st.uncertainties,
    steps := st.steps ++
      ["Applied " ++ ruleName ++ ": " ++ conclusion ++
        " (confidence: " ++ fmtFixed 2 confidence ++ ")"],
    appliedRules := st.appliedRules ++ [ruleName],
    newFactsAdded := true,
    rules := bumpUsage ruleName st.rules }

/-- fcApplyMatches processes the matches of one rule inside one forward pass.
`Sum.inr` is the early `return` taken when the instantiated conclusion
reaches the goal; its payload is the returned confidence
(`uncertainties.get(conclusion) || confidence`). -/
def fcApplyMatches (ruleName : String) (rule : Rule) (goal : String) :
    List (List (String × String) × String) → FCState → FCState ⊕ (ℚ × FCState)
  | [], st => Sum.inl st
  | m :: rest, st =>
    let conclusion := instantiateConclusion rule.conclusion m.1
    if hasStr st.derivedFacts conclusion then fcApplyMatches ruleName rule goal rest st
    else
      let confidence := calculateConfidence rule m.1 st.uncertainties
      let st' := fcDerive ruleName rule m st
      if conclusion = goal ∨ entails conclusion goal = true then
        Sum.inr (jsOr (mapGet conclusion st'.uncertainties) confidence, st')
      else fcApplyMatches ruleName rule goal rest st'

/-- fcApplyRules iterates one forward pass over the rule entries.  The match
list of each rule is computed from the fact set as it stands when that rule
is reached, exactly as in the source (`usage_count` bumps during iteration
never affect matching, so iterating the entry list is observationally equal
to iterating the live Map). -/
def fcApplyRules (goal : String) :
    List (String × Rule) → FCState → FCState ⊕ (ℚ × FCState)
  | [], st => Sum.inl st
  | p :: rest, st =>
    match fcApplyMatches p.1 p.2 goal (matchRule p.2 st.derivedFacts) st with
    | Sum.inl st' => fcApplyRules goal rest st'
    | Sum.inr r => Sum.inr r

/-- fcLoop is the bounded `while (iterations < maxIterations)` loop; `fuel`
is the number of passes still allowed (100 at the start) and `iterations`
the number of passes already begun. -/
def fcLoop (goal : String) : ℕ → ℕ → FCState → ReasoningResult × FCState
  | 0, iterations, st =>
    ({ conclusion := goal, found := hasStr st.derivedFacts goal,
       confidence := jsOr (mapGet goal st.uncertainties) 0,
       steps := st.steps, appliedRules := st.appliedRules, iterations := iterations }, st)
  | fuel+1, iterations, st =>
    let st0 : FCState := { st with newFactsAdded := false }
    match fcApplyRules goal st0.rules st0 with
    | Sum.inr (confidence, st') =>
      ({ conclusion := goal, found := true, confidence := confidence,
         steps := st'.steps, appliedRules := st'.appliedRules,
         iterations := iterations + 1 }, st')
    | Sum.inl st' =>
      if st'.newFactsAdded then fcLoop goal fuel (iterations + 1) st'
      else
        ({ conclusion := goal, found := hasStr st'.derivedFacts goal,
           confidence := jsOr (mapGet goal st'.uncertainties) 0,
           steps := st'.steps, appliedRules := st'.appliedRules,
           iterations := iterations + 1 }, st')

/-- forwardChain models the forward chainer.  The working fact set is a local
copy seeded from the engine's facts; the uncertainty map and the rule usage
counts are the engine's own state, so they persist in the returned engine,
while derived facts do not join `facts`. -/
def forwardChain (eng : ReasoningEngine) (goal : String) :
    ReasoningResult × ReasoningEngine :=
  let st : FCState :=
    { rules := eng.rules, uncertainties := eng.uncertainties,
      derivedFacts := eng.facts, steps := [], appliedRules := [],
      newFactsAdded := false }
  let out := fcLoop goal 100 0 st
  (out.1, { eng with rules := out.2.rules, uncertainties := out.2.uncertainties })

/-- BCState is the mutable state threaded through a backward-chaining
search: the `visited` set and the trace. -/
structure BCState where
  visited : List String
  steps : List String

/-- bcPremiseLoop models the premise loop of `backwardChain.search`: satisfy
every premise in order (recursively, via `search`), tracking the minimum
sub-confidence, stopping at the first failure. -/
def bcPremiseLoop (search : String → BCState → (Bool × ℚ) × BCState) :
    List String → ℚ → BCState → (Bool × ℚ) × BCState
  | [], minConfidence, st => ((true, minConfidence), st)
  | premise :: rest, minConfidence, st =>
    match search premise st with
    | ((true, confidence), st') =>
        bcPremiseLoop search rest (min minConfidence confidence) st'
    | ((false, _), st') => ((false, minConfidence), st')

/-- bcRuleLoop models the rule loop of `backwardChain.search`: the first rule
whose conclusion matches the goal and whose premises are all satisfied wins,
with confidence `minConfidence * (rule.confidence || 1.0)`. -/
def bcRuleLoop (search : String → BCState → (Bool × ℚ) × BCState) (currentGoal : String) :
    List (String × Rule) → BCState → (Bool × ℚ) × BCState
  | [], st => ((false, 0), st)
  | p :: rest, st =>
    if matchesConclusion p.2.conclusion currentGoal then
      let st1 : BCState :=
        { st with steps := st.steps ++ ["Trying rule " ++ p.1 ++ " for " ++ currentGoal] }
      match bcPremiseLoop search p.2.pattern 1 st1 with
      | ((true, minConfidence), st2) =>
        let confidence := minConfidence * jsOr p.2.confidence 1
        ((true, confidence),
         { st2 with steps := st2.steps ++
            ["Satisfied " ++ p.1 ++ ": " ++ currentGoal ++
              " (confidence: " ++ fmtFixed 2 confidence ++ ")"] })
      | ((false, _), st2) => bcRuleLoop search currentGoal rest st2
    else bcRuleLoop search currentGoal rest st

/-- bcSearch models `backwardChain.search(currentGoal, depth)`.  The source
guards `depth > 10`; here `fuel = 11 - depth`, so `fuel = 0` is exactly the
guarded case and the top-level call uses fuel 11. -/
def bcSearch (eng : ReasoningEngine) : ℕ → String → BCState → (Bool × ℚ) × BCState
  | 0, _currentGoal, st => ((false, 0), st)
  | fuel+1, currentGoal, st =>
    if hasStr st.visited currentGoal then ((false, 0), st)
    else
      let st1 : BCState := { st with visited := st.visited ++ [currentGoal] }
      if hasStr eng.facts currentGoal then
        ((true, jsOr (mapGet currentGoal eng.uncertainties) 1),
         { st1 with steps := st1.steps ++ ["Found fact: " ++ currentGoal] })
      else
        bcRuleLoop (bcSearch eng fuel) currentGoal eng.rules st1

/-- backwardChain models the backward chainer; it reads the engine state but
never writes it. -/
def backwardChain (eng : ReasoningEngine) (goal : String) : ReasoningResult :=
  let out := bcSearch eng 11 goal { visited := [], steps := [] }
  { conclusion := goal, found := out.1.1, confidence := out.1.2,
    steps := out.2.steps, method := "backward_chaining" }

/-- explKey is the ranking key of an abductive explanation. -/
def explKey (e : Explanation) : ℚ := e.confidence * e.plausibility

/-- explAfter is the order realized by the JavaScript comparator
`(b, a) => b.key - a.key`: descending by key, ties kept in insertion order
by the (specified-stable) Array.prototype.sort. -/
def explAfter (a b : Explanation) : Prop := explKey b ≤ explKey a

instance : DecidableRel explAfter :=
  fun a b => inferInstanceAs (Decidable (explKey b ≤ explKey a))

instance : IsTotal Explanation explAfter :=
  ⟨fun a b => le_total (explKey b) (explKey a)⟩

instance : IsTrans Explanation explAfter :=
  ⟨fun _ _ _ h1 h2 => le_trans h2 h1⟩

/-- abductiveCandidates is the explanation list before sorting: one
candidate per rule whose conclusion matches the observation, then the
causal-heuristic candidates. -/
def abductiveCandidates (eng : ReasoningEngine) (observation : String) : List Explanation :=
  (eng.rules.filterMap (fun p =>
    if matchesConclusion p.2.conclusion observation then
      some { rule := p.1, premises := p.2.pattern,
             confidence := jsOr p.2.confidence 1,
             plausibility := assessPlausibility eng p.2.pattern }
    else none))
  ++ findCausalExplanations observation

/-- abductiveSteps is the trace built while collecting candidates. -/
def abductiveSteps (eng : ReasoningEngine) (observation : String) : List String :=
  ["Finding explanations for: " ++ observation] ++
  eng.rules.filterMap (fun p =>
    if matchesConclusion p.2.conclusion observation then
      some ("Possible explanation via " ++ p.1 ++ ": " ++ joinSep ", " p.2.pattern)
    else none)

/-- abductiveReason models the abductive reasoner: collect candidates, sort
them descending by confidence × plausibility with a stable sort (insertion
sort realizes exactly the order of the specified-stable Array sort with the
comparator `(b.c*b.p) - (a.c*a.p)`), and report the head as the best
explanation. -/
def abductiveReason (eng : ReasoningEngine) (observation : String) : ReasoningResult :=
  let explanations := (abductiveCandidates eng observation).insertionSort explAfter
  let bestExplanation := explanations.head?
  { conclusion :=
      match bestExplanation with
      | some b => "Best explanation: " ++ joinSep " & " b.premises
      | none => "No explanation found",
    found := !explanations.isEmpty,
    confidence :=
      match bestExplanation with
      | some b => b.confidence * b.plausibility
      | none => 0,
    steps := abductiveSteps eng observation,
    explanations := explanations,
    method := "abductive_reasoning" }

/-- ReasonRequest models the request object of `reason`; a missing `method`
defaults to "forward" via destructuring. -/
structure ReasonRequest where
  premises : List String
  goal : String
  method : String := "forward"

/-- addPremises is the premise-ingestion step of `reason`:
`premises.forEach(premise => this.addFact(premise))`, where the `addFact`
default confidence is 1.0. -/
def addPremises (premises : List String) (eng : ReasoningEngine) : ReasoningEngine :=
  premises.foldl (fun e premise => addFact e premise 1) eng

/-- reason models the `reason` entry point: every premise is first added as
a fact with confidence 1.0 (the `addFact` default), then the selected
chainer runs and the session is appended to the history; an unknown method
throws after the premises were already added, modelled as `Except.error`
with the engine state as mutated so far. -/
def reason (eng : ReasoningEngine) (request : ReasonRequest) :
    ReasoningEngine × Except String ReasoningResult :=
  let eng1 := addPremises request.premises eng
  if request.method = "forward" then
    let out := forwardChain eng1 request.goal
    ({ out.2 with reasoning_history := out.2.reasoning_history ++
        [{ premises := request.premises, goal := request.goal,
           method := request.method, result := out.1 }] },
     Except.ok out.1)
  else if request.method = "backward" then
    let result := backwardChain eng1 request.goal
    ({ eng1 with reasoning_history := eng1.reasoning_history ++
        [{ premises := request.premises, goal := request.goal,
           method := request.method, result := result }] },
     Except.ok result)
  else if request.method = "abductive" then
    let result := abductiveReason eng1 request.goal
    ({ eng1 with reasoning_history := eng1.reasoning_history ++
        [{ premises := request.premises, goal := request.goal,
           method := request.method, result := result }] },
     Except.ok result)
  else (eng1, Except.error ("Unknown reasoning method: " ++ request.method))

/-- exceptOk projects a successful reasoning result. -/
def exceptOk (e : Except String ReasoningResult) : Option ReasoningResult :=
  match e with
  | Except.ok r => some r
  | Except.error _ => none

/-- MemoryRecord is the external memory store's record shape, as consumed by
the integration layer (the wall-clock timestamp is outside the model). -/
structure MemoryRecord where
  id : ℕ := 0
  content : String
  context : String := ""
  confidence : ℚ := 1
  emotional_weight : ℚ := 0

/-- SearchFun abstracts the external collaborator's
`search(query, context, limit)`; relevance and ordering are its
responsibility. -/
abbrev SearchFun := String → Option String → ℕ → List MemoryRecord

/-- jsToLower models `String.prototype.toLowerCase` (ASCII view; the
strings in every theorem below are ASCII). -/
def jsToLower (s : String) : String := String.mk (s.data.map Char.toLower)

/-- jsSplitWsCL models `split(/\s+/)` on a character list: the pieces
between maximal whitespace runs, including the empty leading/trailing
pieces JavaScript produces (`" a ".split(/\s+/) = ["", "a", ""]`).  The
regex class `\s` is modelled by `Char.isWhitespace`. -/
def jsSplitWsCL : List Char → List String
  | [] => [""]
  | c :: cs =>
    let rest := jsSplitWsCL cs
    if c.isWhitespace then
      match cs with
      | [] => "" :: rest
      | c2 :: _ => if c2.isWhitespace then rest else "" :: rest
    else
      match rest with
      | [] => [String.mk [c]]
      | t :: ts => String.mk (c :: t.data) :: ts

/-- jsSplitWs models `s.split(/\s+/)`. -/
def jsSplitWs (s : String) : List String := jsSplitWsCL s.data

/-- dedupKeepFirst models `new Set(list)`: keep the first occurrence of each
element, in insertion order. -/
def dedupKeepFirst (seen : List String) : List String → List String
  | [] => []
  | x :: xs =>
      if hasStr seen x then dedupKeepFirst seen xs
      else x :: dedupKeepFirst (seen ++ [x]) xs

/-- determineSupport models the overlap-and-negation support heuristic of
the integration layer. -/
def determineSupport (memoryContent statement : String) : ℚ :=
  let memoryWords := dedupKeepFirst [] (jsSplitWs (jsToLower memoryContent))
  let statementWords := dedupKeepFirst [] (jsSplitWs (jsToLower statement))
  let overlap := memoryWords.filter (fun x => hasStr statementWords x)
  let overlapFrac := (overlap.length : ℚ) / (statementWords.length : ℚ)
  if containsSubQ memoryContent "not" || containsSubQ memoryContent "never" ||
      containsSubQ memoryContent "impossible" then
    -overlapFrac
  else if overlapFrac > 0.3 then 1 else if overlapFrac > 0.1 then 0.5 else 0

/-- negationWords is the fixed negation-word list of `detectContradiction`,
in the alternation order of its regex. -/
def negationWords : List String := ["not", "never", "impossible", "false", "incorrect"]

/-- isWordChar models the regex word-character class `\w`. -/
def isWordChar (c : Char) : Bool := c.isAlphanum || c = '_'

/-- boundaryOk models a `\b` word boundary against an adjacent character
(absent means string edge). -/
def boundaryOk (oc : Option Char) : Bool :=
  match oc with
  | none => true
  | some c => !isWordChar c

/-- tryNegWord attempts to match one negation word at the head of `l` with
word boundaries on both sides. -/
def tryNegWord (prev : Option Char) (l : List Char) (w : String) :
    Option (List Char × List Char) :=
  if isPrefixCL w.data l && boundaryOk prev &&
      boundaryOk ((l.drop w.data.length).head?) then
    some (w.data, l.drop w.data.length)
  else none

/-- tryNegAny attempts the negation words in alternation order. -/
def tryNegAny (prev : Option Char) (l : List Char) :
    List String → Option (List Char × List Char)
  | [] => none
  | w :: ws =>
    match tryNegWord prev l w with
    | some r => some r
    | none => tryNegAny prev l ws

/-- stripNegGo scans the text once, deleting every boundary-delimited
negation word, the semantics of the global regex replace in
`detectContradiction`.  Fuel is the character count (every step consumes at
least one character). -/
def stripNegGo : ℕ → Option Char → List Char → List Char
  | 0, _, l => l
  | _+1, _, [] => []
  | fuel+1, prev, c :: cs =>
    match tryNegAny prev (c :: cs) negationWords with
    | some (w, rest) => stripNegGo fuel w.getLast? rest
    | none => c :: stripNegGo fuel (some c) cs

/-- stripNegationWords models
`s.replace(/\b(not|never|impossible|false|incorrect)\b/g, '')`. -/
def stripNegationWords (s : String) : String :=
  String.mk (stripNegGo (s.data.length + 1) none s.data)

/-- jsTrim models `String.prototype.trim`. -/
def jsTrim (s : String) : String :=
  String.mk (((s.data.dropWhile Char.isWhitespace).reverse.dropWhile Char.isWhitespace).reverse)

/-- hasNegation checks for any negation word as a plain substring (the
`includes` check of `detectContradiction`, no word boundaries). -/
def hasNegation (s : String) : Bool := negationWords.any (fun w => containsSubQ s w)

/-- calculateSimilarity is Jaccard token similarity on whitespace tokens. -/
def calculateSimilarity (text1 text2 : String) : ℚ :=
  let words1 := dedupKeepFirst [] (jsSplitWs text1)
  let words2 := dedupKeepFirst [] (jsSplitWs text2)
  let intersection := words1.filter (fun x => hasStr words2 x)
  let unionWords := dedupKeepFirst [] (words1 ++ words2)
  (intersection.length : ℚ) / (unionWords.length : ℚ)

/-- detectContradiction reports a contradiction when exactly one text
contains a negation word and the negation-stripped texts are more than 0.7
similar. -/
def detectContradiction (statement1 statement2 : String) : Bool :=
  let s1 := jsToLower statement1
  let s2 := jsToLower statement2
  let hasNegation1 := hasNegation s1
  let hasNegation2 := hasNegation s2
  if hasNegation1 != hasNegation2 then
    decide (calculateSimilarity (jsTrim (stripNegationWords s1))
      (jsTrim (stripNegationWords s2)) > 0.7)
  else false

/-- MemorySupport is the result of `assessMemorySupport`; `matchCount`
models the JavaScript field `matches` (a reserved word in Lean). -/
structure MemorySupport where
  confidence : ℚ
  matchCount : ℕ
  supporting : ℕ
  contradicting : ℕ

/-- assessMemorySupport searches up to 10 relevant memories and scores
support minus contradiction over the match count, clamped to [0,1]. -/
def assessMemorySupport (search : SearchFun) (statement : String) : MemorySupport :=
  let relevantMemories := search statement none 10
  let supportingMemories := relevantMemories.filter
    (fun m => decide (determineSupport m.content statement > 0))
  let contradictingMemories := relevantMemories.filter
    (fun m => decide (determineSupport m.content statement < 0))
  let supportScore := supportingMemories.foldl (fun sum m => sum + m.confidence) 0
  let contradictionScore := contradictingMemories.foldl (fun sum m => sum + m.confidence) 0
  let confidence := max 0 (min 1
    ((supportScore - contradictionScore) / max 1 (relevantMemories.length : ℚ)))
  { confidence := confidence, matchCount := relevantMemories.length,
    supporting := supportingMemories.length,
    contradicting := contradictingMemories.length }

/-- ReasoningSupport is the result of `assessReasoningSupport`; absent
fields of the per-branch JavaScript objects keep their defaults. -/
structure ReasoningSupport where
  confidence : ℚ
  method : String
  steps : List String := []
  explanations : List Explanation := []

/-- assessReasoningSupport: no evidence means 0.5/no_evidence; otherwise try
forward chaining, fall back to abductive at 0.8× on a thrown error, and
degrade to 0.3/reasoning_failed if that also throws.  The catch-based
control flow is modelled on `Except`; an engine mutated by a failed call
stays mutated, as in the source. -/
def assessReasoningSupport (eng : ReasoningEngine) (statement : String)
    (evidence : List String) : ReasoningSupport × ReasoningEngine :=
  if evidence.length = 0 then ({ confidence := 0.5, method := "no_evidence" }, eng)
  else
    match reason eng { premises := evidence, goal := statement, method := "forward" } with
    | (eng1, Except.ok reasoningResult) =>
      ({ confidence := reasoningResult.confidence, method := "forward_chaining",
         steps := reasoningResult.steps }, eng1)
    | (eng1, Except.error _) =>
      match reason eng1 { premises := evidence, goal := statement, method := "abductive" } with
      | (eng2, Except.ok abductiveResult) =>
        ({ confidence := abductiveResult.confidence * 0.8, method := "abductive_reasoning",
           explanations := abductiveResult.explanations }, eng2)
      | (eng2, Except.error _) =>
        ({ confidence := 0.3, method := "reasoning_failed" }, eng2)

/-- ContradictionDetail is one entry of the consistency check's details. -/
structure ContradictionDetail where
  memory_id : ℕ
  content : String
  confidence : ℚ

/-- ConsistencyCheck is the result of `checkConsistency`. -/
structure ConsistencyCheck where
  score : ℚ
  contradictions : ℕ
  details : List ContradictionDetail

/-- checkConsistency searches up to 15 related memories and scores
`max(0, 1 - 0.2 × contradiction count)`. -/
def checkConsistency (search : SearchFun) (statement : String) : ConsistencyCheck :=
  let relatedMemories := search statement none 15
  let contradictions := (relatedMemories.filter
      (fun m => detectContradiction statement m.content)).map
    (fun m => ({ memory_id := m.id, content := m.content,
                 confidence := m.confidence } : ContradictionDetail))
  let consistencyScore := max 0 (1 - (contradictions.length : ℚ) * 0.2)
  { score := consistencyScore, contradictions := contradictions.length,
    details := contradictions }

/-- assessSourceReliability is the static placeholder: 0.7 with evidence,
0.5 without. -/
def assessSourceReliability (evidence : List String) : ℚ :=
  if evidence.length = 0 then 0.5 else 0.7

/-- categorizeConfidence buckets a score into the categorical level. -/
def categorizeConfidence (score : ℚ) : String :=
  if score ≥ 0.9 then "very_high"
  else if score ≥ 0.7 then "high"
  else if score ≥ 0.5 then "moderate"
  else if score ≥ 0.3 then "low"
  else "very_low"

/-- ConfidenceBreakdown is the weighted sub-score breakdown. -/
structure ConfidenceBreakdown where
  memory_support : ℚ
  reasoning_support : ℚ
  consistency : ℚ
  source_reliability : ℚ

/-- ConfidenceAssessment is the result of `assessConfidence`. -/
structure ConfidenceAssessment where
  level : String
  score : ℚ
  factors : List String
  breakdown : ConfidenceBreakdown

/-- StoreRecord is the record written back to the external memory store. -/
structure StoreRecord where
  content : String
  context : String
  type : String
  emotional_weight : ℚ
  confidence : ℚ

/-- assessConfidence combines the four sub-assessments with fixed weights
0.3/0.4/0.2/0.1.  It returns the assessment, the engine as possibly mutated
by the reasoning sub-assessment, and the record handed to the external
store's `store`. -/
def assessConfidence (search : SearchFun) (eng : ReasoningEngine)
    (statement : String) (evidence : List String) :
    ConfidenceAssessment × ReasoningEngine × StoreRecord :=
  let memorySupport := assessMemorySupport search statement
  let rsOut := assessReasoningSupport eng statement evidence
  let reasoningSupport := rsOut.1
  let consistencyCheck := checkConsistency search statement
  let sourceReliability := assessSourceReliability evidence
  let memoryScore := memorySupport.confidence * 0.3
  let reasoningScore := reasoningSupport.confidence * 0.4
  let consistencyScore := consistencyCheck.score * 0.2
  let sourceScore := sourceReliability * 0.1
  let overallConfidence := 0 + memoryScore + reasoningScore + consistencyScore + sourceScore
  let factors : List String :=
    ["Memory support: " ++ toString memorySupport.matchCount ++ " relevant memories (" ++
        fmtFixed 1 (memorySupport.confidence * 100) ++ "%)",
     "Reasoning support: " ++ reasoningSupport.method ++ " reasoning with " ++
        fmtFixed 1 (reasoningSupport.confidence * 100) ++ "% confidence",
     "Consistency: " ++ toString consistencyCheck.contradictions ++ " contradictions found",
     "Source reliability: " ++ fmtFixed 1 (sourceReliability * 100) ++ "% average"]
  let confidenceLevel := categorizeConfidence overallConfidence
  ({ level := confidenceLevel, score := overallConfidence, factors := factors,
     breakdown := { memory_support := memoryScore, reasoning_support := reasoningScore,
                    consistency := consistencyScore, source_reliability := sourceScore } },
   rsOut.2,
   { content := "Confidence assessment: " ++ statement ++ " - " ++ confidenceLevel,
     context := "confidence_assessment", type := "semantic",
     emotional_weight := 0.1, confidence := overallConfidence })

/-- emptySearch is the external memory store that returns no results for
every query. -/
def emptySearch : SearchFun := fun _ _ _ => []

/-- uncWF states that every stored fact confidence lies in [0,1]. -/
def uncWF (unc : List (String × ℚ)) : Bool :=
  unc.all (fun p => decide (0 ≤ p.2) && decide (p.2 ≤ 1))

/-- ruleWF states that a rule is well formed: its numeric confidence (when
present) and success rate lie in [0,1] and its premise list is non-empty
(the source crashes on `pattern[0]` of an empty premise list, and
`Math.min()` of no premise confidences would be Infinity). -/
def ruleWF (r : Rule) : Bool :=
  (match r.confidence with
   | some c => decide (0 ≤ c) && decide (c ≤ 1)
   | none => true)
  && (decide (0 ≤ r.success_rate) && decide (r.success_rate ≤ 1))
  && !r.pattern.isEmpty

/-- rulesWF states that every registered rule is well formed. -/
def rulesWF (rules : List (String × Rule)) : Bool := rules.all (fun p => ruleWF p.2)

/-- engineWF states that the whole knowledge base is well formed. -/
def engineWF (eng : ReasoningEngine) : Bool :=
  rulesWF eng.rules && uncWF eng.uncertainties

theorem clamp01_range (x : ℚ) : 0 ≤ clamp01 x ∧ clamp01 x ≤ 1 := by
  refine ⟨le_max_left 0 _, max_le (by norm_num) (min_le_left 1 x)⟩

theorem uncWF_iff {unc : List (String × ℚ)} :
    uncWF unc = true ↔ ∀ p ∈ unc, 0 ≤ p.2 ∧ p.2 ≤ 1 := by
  simp [uncWF, List.all_eq_true]

theorem mapGet_mem {α : Type} {k : String} {l : List (String × α)} {v : α}
    (hg : mapGet k l = some v) : ∃ k', (k', v) ∈ l := by
  induction l with
  | nil => simp [mapGet] at hg
  | cons p rest ih =>
    by_cases hk : p.1 = k
    · refine ⟨p.1, ?_⟩
      simp only [mapGet, if_pos hk] at hg
      cases hg
      exact List.mem_cons_self _ _
    · simp only [mapGet, if_neg hk] at hg
      obtain ⟨k', hm⟩ := ih hg
      exact ⟨k', List.mem_cons_of_mem _ hm⟩

theorem uncWF_get {unc : List (String × ℚ)} {k : String} {v : ℚ}
    (h : uncWF unc = true) (hg : mapGet k unc = some v) : 0 ≤ v ∧ v ≤ 1 := by
  obtain ⟨k', hm⟩ := mapGet_mem hg
  exact uncWF_iff.mp h (k', v) hm

theorem uncWF_mapSet {unc : List (String × ℚ)} {k : String} {v : ℚ}
    (h : uncWF unc = true) (h0 : 0 ≤ v) (h1 : v ≤ 1) :
    uncWF (mapSet k v unc) = true := by
  rw [uncWF_iff] at h ⊢
  induction unc with
  | nil =>
    intro p hp
    simp [mapSet] at hp
    simp [hp, h0, h1]
  | cons q rest ih =>
    intro p hp
    by_cases hk : q.1 = k
    · simp only [mapSet, if_pos hk] at hp
      rcases List.mem_cons.mp hp with h' | h'
      · simp [h', h0, h1]
      · exact h p (List.mem_cons_of_mem _ h')
    · simp only [mapSet, if_neg hk] at hp
      rcases List.mem_cons.mp hp with h' | h'
      · exact h p (h' ▸ List.mem_cons_self _ _)
      · exact ih (fun r hr => h r (List.mem_cons_of_mem _ hr)) p h'

theorem jsOr_range {unc : List (String × ℚ)} {k : String} {d : ℚ}
    (h : uncWF unc = true) (hd0 : 0 ≤ d) (hd1 : d ≤ 1) :
    0 ≤ jsOr (mapGet k unc) d ∧ jsOr (mapGet k unc) d ≤ 1 := by
  cases hg : mapGet k unc with
  | none => simpa [jsOr] using ⟨hd0, hd1⟩
  | some v =>
    have hv := uncWF_get h hg
    by_cases h0 : v = 0
    · simpa [jsOr, h0] using ⟨hd0, hd1⟩
    · simpa [jsOr, h0] using hv

theorem ruleWF_conf {r : Rule} (h : ruleWF r = true) :
    0 ≤ jsOr r.confidence 1 ∧ jsOr r.confidence 1 ≤ 1 := by
  unfold ruleWF at h
  cases hc : r.confidence with
  | none => simp [jsOr]
  | some c =>
    rw [hc] at h
    simp only [Bool.and_eq_true, decide_eq_true_eq] at h
    by_cases h0 : c = 0
    · simp [jsOr, h0]
    · simpa [jsOr, h0] using h.1.1

theorem ruleWF_sr {r : Rule} (h : ruleWF r = true) :
    0 ≤ r.success_rate ∧ r.success_rate ≤ 1 := by
  unfold ruleWF at h
  simp only [Bool.and_eq_true, decide_eq_true_eq] at h
  exact h.1.2

theorem rulesWF_mem {rules : List (String × Rule)} {p : String × Rule}
    (h : rulesWF rules = true) (hm : p ∈ rules) : ruleWF p.2 = true := by
  unfold rulesWF at h
  exact List.all_eq_true.mp h p hm

theorem calculateConfidence_range (r : Rule) (b : List (String × String))
    (u : List (String × ℚ)) :
    0 ≤ calculateConfidence r b u ∧ calculateConfidence r b u ≤ 1 := by
  unfold calculateConfidence
  exact clamp01_range _

theorem mapGet_mapSet_self {α : Type} (k : String) (v : α) (l : List (String × α)) :
    mapGet k (mapSet k v l) = some v := by
  induction l with
  | nil => simp [mapSet, mapGet]
  | cons p rest ih =>
    by_cases h : p.1 = k <;> simp [mapSet, mapGet, h, ih]

theorem mapGet_mapSet_ne {α : Type} {k k' : String} (hne : k' ≠ k) (v : α)
    (l : List (String × α)) : mapGet k (mapSet k' v l) = mapGet k l := by
  induction l with
  | nil => simp [mapSet, mapGet, hne]
  | cons p rest ih =>
    by_cases h : p.1 = k'
    · simp [mapSet, mapGet, h, hne]
    · by_cases h2 : p.1 = k <;> simp [mapSet, mapGet, h, h2, ih, Ne.symm hne]

theorem jsOr_some_self (v : ℚ) : jsOr (some v) v = v := by
  by_cases h : v = 0 <;> simp [jsOr, h]

theorem fcDerive_uncertainties (n : String) (r : Rule)
    (m : List (String × String) × String) (st : FCState) :
    (fcDerive n r m st).uncertainties =
      mapSet (instantiateConclusion r.conclusion m.1)
        (calculateConfidence r m.1 st.uncertainties) st.uncertainties := rfl

theorem fcApplyMatches_cons_skip {n : String} {r : Rule} {g : String}
    {m : List (String × String) × String} {rest : List (List (String × String) × String)}
    {st : FCState} (h1 : hasStr st.derivedFacts (instantiateConclusion r.conclusion m.1) = true) :
    fcApplyMatches n r g (m :: rest) st = fcApplyMatches n r g rest st := by
  simp only [fcApplyMatches, h1, if_true]

theorem fcApplyMatches_cons_goal {n : String} {r : Rule} {g : String}
    {m : List (String × String) × String} {rest : List (List (String × String) × String)}
    {st : FCState}
    (h1 : ¬ hasStr st.derivedFacts (instantiateConclusion r.conclusion m.1) = true)
    (h2 : instantiateConclusion r.conclusion m.1 = g ∨
      entails (instantiateConclusion r.conclusion m.1) g = true) :
    fcApplyMatches n r g (m :: rest) st =
      Sum.inr (jsOr (mapGet (instantiateConclusion r.conclusion m.1)
          (fcDerive n r m st).uncertainties)
        (calculateConfidence r m.1 st.uncertainties), fcDerive n r m st) := by
  simp only [fcApplyMatches, h1]
  rw [if_neg (by simp), if_pos h2]

theorem fcApplyMatches_cons_next {n : String} {r : Rule} {g : String}
    {m : List (String × String) × String} {rest : List (List (String × String) × String)}
    {st : FCState}
    (h1 : ¬ hasStr st.derivedFacts (instantiateConclusion r.conclusion m.1) = true)
    (h2 : ¬ (instantiateConclusion r.conclusion m.1 = g ∨
      entails (instantiateConclusion r.conclusion m.1) g = true)) :
    fcApplyMatches n r g (m :: rest) st = fcApplyMatches n r g rest (fcDerive n r m st) := by
  simp only [fcApplyMatches, h1]
  rw [if_neg (by simp), if_neg h2]

theorem fcApplyMatches_inv (n : String) (r : Rule) (g : String) :
    ∀ (ms : List (List (String × String) × String)) (st : FCState),
      uncWF st.uncertainties = true →
      ((∀ st', fcApplyMatches n r g ms st = Sum.inl st' → uncWF st'.uncertainties = true) ∧
       (∀ c st', fcApplyMatches n r g ms st = Sum.inr (c, st') →
         uncWF st'.uncertainties = true ∧ 0 ≤ c ∧ c ≤ 1)) := by
  intro ms
  induction ms with
  | nil =>
    intro st h
    refine ⟨fun st' he => ?_, fun c st' he => ?_⟩
    · simp only [fcApplyMatches] at he
      cases he
      exact h
    · simp [fcApplyMatches] at he
  | cons m rest ih =>
    intro st h
    have hc := calculateConfidence_range r m.1 st.uncertainties
    have hw : uncWF (fcDerive n r m st).uncertainties = true := by
      rw [fcDerive_uncertainties]
      exact uncWF_mapSet h hc.1 hc.2
    by_cases h1 : hasStr st.derivedFacts (instantiateConclusion r.conclusion m.1) = true
    · rw [fcApplyMatches_cons_skip h1]
      exact ih st h
    · by_cases h2 : instantiateConclusion r.conclusion m.1 = g ∨
        entails (instantiateConclusion r.conclusion m.1) g = true
      · rw [fcApplyMatches_cons_goal h1 h2]
        refine ⟨fun st' he => ?_, fun c st' he => ?_⟩
        · simp at he
        · rw [Sum.inr.injEq, Prod.mk.injEq] at he
          obtain ⟨hec, hes⟩ := he
          subst hes
          refine ⟨hw, ?_⟩
          rw [← hec, fcDerive_uncertainties, mapGet_mapSet_self, jsOr_some_self]
          exact hc
      · rw [fcApplyMatches_cons_next h1 h2]
        exact ih (fcDerive n r m st) hw

theorem fcApplyRules_inv (g : String) :
    ∀ (rs : List (String × Rule)) (st : FCState),
      uncWF st.uncertainties = true →
      ((∀ st', fcApplyRules g rs st = Sum.inl st' → uncWF st'.uncertainties = true) ∧
       (∀ c st', fcApplyRules g rs st = Sum.inr (c, st') →
         uncWF st'.uncertainties = true ∧ 0 ≤ c ∧ c ≤ 1)) := by
  intro rs
  induction rs with
  | nil =>
    intro st h
    refine ⟨fun st' he => ?_, fun c st' he => ?_⟩
    · simp only [fcApplyRules] at he
      cases he
      exact h
    · simp [fcApplyRules] at he
  | cons p rest ih =>
    intro st h
    have hm := fcApplyMatches_inv p.1 p.2 g (matchRule p.2 st.derivedFacts) st h
    refine ⟨fun st' he => ?_, fun c st' he => ?_⟩
    · simp only [fcApplyRules] at he
      cases hem : fcApplyMatches p.1 p.2 g (matchRule p.2 st.derivedFacts) st with
      | inl st1 =>
        rw [hem] at he
        exact (ih st1 (hm.1 st1 hem)).1 st' he
      | inr r1 =>
        rw [hem] at he
        cases he
    · simp only [fcApplyRules] at he
      cases hem : fcApplyMatches p.1 p.2 g (matchRule p.2 st.derivedFacts) st with
      | inl st1 =>
        rw [hem] at he
        exact (ih st1 (hm.1 st1 hem)).2 c st' he
      | inr r1 =>
        rw [hem] at he
        rw [Sum.inr.injEq] at he
        exact hm.2 c st' (he ▸ hem)

theorem fcLoop_inv (g : String) :
    ∀ (fuel iterations : ℕ) (st : FCState), uncWF st.uncertainties = true →
      (0 ≤ (fcLoop g fuel iterations st).1.confidence ∧
       (fcLoop g fuel iterations st).1.confidence ≤ 1) ∧
      uncWF (fcLoop g fuel iterations st).2.uncertainties = true := by
  intro fuel
  induction fuel with
  | zero =>
    intro it st h
    exact ⟨jsOr_range h le_rfl (by norm_num), h⟩
  | succ fuel ih =>
    intro it st h
    have h0 : uncWF (({ st with newFactsAdded := false } : FCState)).uncertainties = true := h
    have hr := fcApplyRules_inv g ({ st with newFactsAdded := false } : FCState).rules
      ({ st with newFactsAdded := false } : FCState) h0
    simp only [fcLoop]
    cases hem : fcApplyRules g ({ st with newFactsAdded := false } : FCState).rules
        ({ st with newFactsAdded := false } : FCState) with
    | inr r1 =>
      have := hr.2 r1.1 r1.2 (by rw [hem])
      simp only [hem]
      exact ⟨⟨this.2.1, this.2.2⟩, this.1⟩
    | inl st1 =>
      have h1 : uncWF st1.uncertainties = true := hr.1 st1 hem
      simp only [hem]
      by_cases hn : st1.newFactsAdded = true
      · simpa [hn] using ih (it + 1) st1 h1
      · simp only [hn, if_false, Bool.false_eq_true]
        exact ⟨jsOr_range h1 le_rfl (by norm_num), h1⟩

theorem fcLoop_iterations (g : String) :
    ∀ (fuel iterations : ℕ) (st : FCState),
      (fcLoop g fuel iterations st).1.iterations ≤ iterations + fuel := by
  intro fuel
  induction fuel with
  | zero => intro it st; simp [fcLoop]
  | succ fuel ih =>
    intro it st
    simp only [fcLoop]
    cases hem : fcApplyRules g ({ st with newFactsAdded := false } : FCState).rules
        ({ st with newFactsAdded := false } : FCState) with
    | inr r1 => simp only [hem]; omega
    | inl st1 =>
      simp only [hem]
      by_cases hn : st1.newFactsAdded = true
      · have := ih (it + 1) st1
        simp only [hn, if_true]
        omega
      · simp only [hn, if_false, Bool.false_eq_true]
        omega

theorem forwardChain_conf_range (eng : ReasoningEngine) (goal : String)
    (h : uncWF eng.uncertainties = true) :
    0 ≤ (forwardChain eng goal).1.confidence ∧ (forwardChain eng goal).1.confidence ≤ 1 := by
  unfold forwardChain
  exact (fcLoop_inv goal 100 0 _ h).1

theorem forwardChain_iterations (eng : ReasoningEngine) (goal : String) :
    (forwardChain eng goal).1.iterations ≤ 100 := by
  unfold forwardChain
  have := fcLoop_iterations goal 100 0
    ({ rules := eng.rules, uncertainties := eng.uncertainties,
       derivedFacts := eng.facts, steps := [], appliedRules := [],
       newFactsAdded := false } : FCState)
  simpa using this

theorem bcPremiseLoop_range (search : String → BCState → (Bool × ℚ) × BCState)
    (hs : ∀ gl st, 0 ≤ ((search gl st).1).2 ∧ ((search gl st).1).2 ≤ 1) :
    ∀ (prems : List String) (minC : ℚ) (st : BCState), 0 ≤ minC → minC ≤ 1 →
      0 ≤ ((bcPremiseLoop search prems minC st).1).2 ∧
      ((bcPremiseLoop search prems minC st).1).2 ≤ 1 := by
  intro prems
  induction prems with
  | nil =>
    intro minC st h0 h1
    simpa [bcPremiseLoop] using ⟨h0, h1⟩
  | cons p rest ih =>
    intro minC st h0 h1
    have hp := hs p st
    simp only [bcPremiseLoop]
    rcases hsp : search p st with ⟨⟨found, conf⟩, st'⟩
    rw [hsp] at hp
    cases found
    · simpa using ⟨h0, h1⟩
    · exact ih (min minC conf) st' (le_min h0 hp.1) (le_trans (min_le_left _ _) h1)

theorem bcRuleLoop_range (search : String → BCState → (Bool × ℚ) × BCState)
    (hs : ∀ gl st, 0 ≤ ((search gl st).1).2 ∧ ((search gl st).1).2 ≤ 1) (goal : String) :
    ∀ (rs : List (String × Rule)) (st : BCState), rulesWF rs = true →
      0 ≤ ((bcRuleLoop search goal rs st).1).2 ∧
      ((bcRuleLoop search goal rs st).1).2 ≤ 1 := by
  intro rs
  induction rs with
  | nil =>
    intro st _
    simp [bcRuleLoop]
  | cons p rest ih =>
    intro st hwf
    have hwf1 : ruleWF p.2 = true := by
      unfold rulesWF at hwf
      exact List.all_eq_true.mp hwf p (List.mem_cons_self _ _)
    have hwf2 : rulesWF rest = true := by
      unfold rulesWF at hwf ⊢
      exact List.all_eq_true.mpr
        (fun q hq => List.all_eq_true.mp hwf q (List.mem_cons_of_mem _ hq))
    by_cases hm : matchesConclusion p.2.conclusion goal = true
    · simp only [bcRuleLoop, hm, if_true]
      rcases hpl : bcPremiseLoop search p.2.pattern 1
          ({ st with steps := st.steps ++ ["Trying rule " ++ p.1 ++ " for " ++ goal] }) with
        ⟨⟨sat, minC⟩, st2⟩
      have hmc := bcPremiseLoop_range search hs p.2.pattern 1
        ({ st with steps := st.steps ++ ["Trying rule " ++ p.1 ++ " for " ++ goal] })
        (by norm_num) (by norm_num)
      rw [hpl] at hmc
      cases sat
      · simpa using ih st2 hwf2
      · have hjc := ruleWF_conf hwf1
        simp only
        constructor
        · exact mul_nonneg hmc.1 hjc.1
        · calc minC * jsOr p.2.confidence 1 ≤ 1 * 1 :=
              mul_le_mul hmc.2 hjc.2 hjc.1 (by norm_num)
          _ = 1 := by norm_num
    · simp only [bcRuleLoop, hm]
      rw [if_neg (by simp)]
      exact ih st hwf2

theorem bcSearch_range (eng : ReasoningEngine) (hr : rulesWF eng.rules = true)
    (hu : uncWF eng.uncertainties = true) :
    ∀ (fuel : ℕ) (goal : String) (st : BCState),
      0 ≤ ((bcSearch eng fuel goal st).1).2 ∧ ((bcSearch eng fuel goal st).1).2 ≤ 1 := by
  intro fuel
  induction fuel with
  | zero =>
    intro goal st
    simp [bcSearch]
  | succ fuel ih =>
    intro goal st
    by_cases hv : hasStr st.visited goal = true
    · simp only [bcSearch, hv, if_true]
      norm_num
    · by_cases hf : hasStr eng.facts goal = true
      · simp only [bcSearch, hv, hf]
        rw [if_neg (by simp), if_pos trivial]
        exact jsOr_range hu (by norm_num) (by norm_num)
      · simp only [bcSearch, hv, hf]
        rw [if_neg (by simp), if_neg (by simp)]
        exact bcRuleLoop_range (bcSearch eng fuel) (fun gl st => ih gl st) goal eng.rules _ hr

theorem backwardChain_conf_range (eng : ReasoningEngine) (goal : String)
    (hr : rulesWF eng.rules = true) (hu : uncWF eng.uncertainties = true) :
    0 ≤ (backwardChain eng goal).confidence ∧ (backwardChain eng goal).confidence ≤ 1 := by
  unfold backwardChain
  exact bcSearch_range eng hr hu 11 goal { visited := [], steps := [] }

theorem foldl_step_range (f : ℚ → String → ℚ)
    (hf : ∀ a s, 0 ≤ a → a ≤ 1 → 0 ≤ f a s ∧ f a s ≤ 1) :
    ∀ (l : List String) (p0 : ℚ), 0 ≤ p0 → p0 ≤ 1 →
      0 ≤ l.foldl f p0 ∧ l.foldl f p0 ≤ 1 := by
  intro l
  induction l with
  | nil =>
    intro p0 h0 h1
    simpa using ⟨h0, h1⟩
  | cons p rest ih =>
    intro p0 h0 h1
    simp only [List.foldl_cons]
    exact ih (f p0 p) (hf p0 p h0 h1).1 (hf p0 p h0 h1).2

theorem assessPlausibility_range (eng : ReasoningEngine) (premises : List String) :
    0 ≤ assessPlausibility eng premises ∧ assessPlausibility eng premises ≤ 1 := by
  unfold assessPlausibility
  refine foldl_step_range _ ?_ premises 1 (by norm_num) (by norm_num)
  intro a str h0 h1
  by_cases hA : hasStr eng.facts str = true
  · simp only [hA, if_true]
    constructor <;> nlinarith
  · by_cases hB : hasStr eng.facts ("¬" ++ str) = true
    · simp only [hA, hB, if_true]
      rw [if_neg (by simp)]
      constructor <;> nlinarith
    · simp only [hA, hB]
      rw [if_neg (by simp), if_neg (by simp)]
      constructor <;> nlinarith

theorem abductiveCandidates_range (eng : ReasoningEngine) (obs : String)
    (hr : rulesWF eng.rules = true) :
    ∀ e ∈ abductiveCandidates eng obs,
      (0 ≤ e.confidence ∧ e.confidence ≤ 1) ∧
      (0 ≤ e.plausibility ∧ e.plausibility ≤ 1) := by
  intro e he
  unfold abductiveCandidates at he
  rcases List.mem_append.mp he with h | h
  · obtain ⟨p, hp, hfe⟩ := List.mem_filterMap.mp h
    by_cases hm : matchesConclusion p.2.conclusion obs = true
    · rw [if_pos hm] at hfe
      cases hfe
      exact ⟨ruleWF_conf (rulesWF_mem hr hp), assessPlausibility_range eng p.2.pattern⟩
    · rw [if_neg hm] at hfe
      cases hfe
  · unfold findCausalExplanations at h
    by_cases hc : containsSubQ obs "effect" = true
    · rw [if_pos hc] at h
      rw [List.mem_singleton] at h
      subst h
      norm_num
    · rw [if_neg hc] at h
      cases h

theorem abductiveReason_conf_range (eng : ReasoningEngine) (obs : String)
    (hr : rulesWF eng.rules = true) :
    0 ≤ (abductiveReason eng obs).confidence ∧ (abductiveReason eng obs).confidence ≤ 1 := by
  simp only [abductiveReason]
  cases hh : (List.insertionSort explAfter (abductiveCandidates eng obs)).head? with
  | none =>
    simp only [hh]
    norm_num
  | some b =>
    have hb : b ∈ List.insertionSort explAfter (abductiveCandidates eng obs) := by
      cases hl : List.insertionSort explAfter (abductiveCandidates eng obs) with
      | nil => rw [hl] at hh; cases hh
      | cons x xs =>
        rw [hl] at hh
        simp only [List.head?] at hh
        cases hh
        exact List.mem_cons_self _ _
    have hbc : b ∈ abductiveCandidates eng obs :=
      (List.perm_insertionSort explAfter (abductiveCandidates eng obs)).mem_iff.mp hb
    have hrange := abductiveCandidates_range eng obs hr b hbc
    simp only [hh]
    constructor
    · exact mul_nonneg hrange.1.1 hrange.2.1
    · calc b.confidence * b.plausibility ≤ 1 * 1 :=
          mul_le_mul hrange.1.2 hrange.2.2 hrange.2.1 (by norm_num)
      _ = 1 := by norm_num

theorem filter_orderedInsert_key (x : Explanation) (k : ℚ) (hx : explKey x = k) :
    ∀ l : List Explanation,
      (List.orderedInsert explAfter x l).filter (fun e => decide (explKey e = k)) =
      x :: l.filter (fun e => decide (explKey e = k)) := by
  intro l
  induction l with
  | nil => simp [List.orderedInsert, hx]
  | cons y ys ih =>
    by_cases hry : explAfter x y
    · simp [List.orderedInsert, hry, hx]
    · have hy : ¬ explKey y = k := by
        intro heq
        exact hry (le_of_eq (heq.trans hx.symm))
      simp [List.orderedInsert, hry, hy, ih]

theorem filter_orderedInsert_ne (x : Explanation) (k : ℚ) (hx : ¬ explKey x = k) :
    ∀ l : List Explanation,
      (List.orderedInsert explAfter x l).filter (fun e => decide (explKey e = k)) =
      l.filter (fun e => decide (explKey e = k)) := by
  intro l
  induction l with
  | nil => simp [List.orderedInsert, hx]
  | cons y ys ih =>
    by_cases hry : explAfter x y
    · simp [List.orderedInsert, hry, hx]
    · simp [List.orderedInsert, hry, List.filter_cons, ih]

theorem insertionSort_filter_key (k : ℚ) :
    ∀ l : List Explanation,
      (l.insertionSort explAfter).filter (fun e => decide (explKey e = k)) =
      l.filter (fun e => decide (explKey e = k)) := by
  intro l
  induction l with
  | nil => rfl
  | cons x xs ih =>
    simp only [List.insertionSort]
    by_cases hx : explKey x = k
    · rw [filter_orderedInsert_key x k hx (xs.insertionSort explAfter), ih]
      simp [List.filter_cons, hx]
    · rw [filter_orderedInsert_ne x k hx (xs.insertionSort explAfter), ih]
      simp [List.filter_cons, hx]

theorem assessMemorySupport_range (search : SearchFun) (statement : String) :
    0 ≤ (assessMemorySupport search statement).confidence ∧
    (assessMemorySupport search statement).confidence ≤ 1 := by
  simp only [assessMemorySupport]
  exact ⟨le_max_left 0 _, max_le (by norm_num) (min_le_left _ _)⟩

theorem checkConsistency_range (search : SearchFun) (statement : String) :
    0 ≤ (checkConsistency search statement).score ∧
    (checkConsistency search statement).score ≤ 1 := by
  simp only [checkConsistency]
  refine ⟨le_max_left 0 _, max_le (by norm_num) ?_⟩
  have h : (0:ℚ) ≤ (((List.filter
      (fun m => detectContradiction statement m.content)
      (search statement none 15)).map
      (fun m => ({ memory_id := m.id, content := m.content,
                   confidence := m.confidence } : ContradictionDetail))).length : ℚ) * 0.2 := by
    positivity
  linarith

theorem assessSourceReliability_range (evidence : List String) :
    0 ≤ assessSourceReliability evidence ∧ assessSourceReliability evidence ≤ 1 := by
  unfold assessSourceReliability
  split_ifs <;> norm_num

theorem addFact_rules (eng : ReasoningEngine) (f : String) (c : ℚ) :
    (addFact eng f c).rules = eng.rules := rfl

theorem addFact_uncWF {eng : ReasoningEngine} {f : String} {c : ℚ}
    (h : uncWF eng.uncertainties = true) (h0 : 0 ≤ c) (h1 : c ≤ 1) :
    uncWF (addFact eng f c).uncertainties = true := uncWF_mapSet h h0 h1

theorem addPremises_uncWF (premises : List String) :
    ∀ {eng : ReasoningEngine}, uncWF eng.uncertainties = true →
      uncWF (addPremises premises eng).uncertainties = true := by
  induction premises with
  | nil => intro eng h; exact h
  | cons p rest ih =>
    intro eng h
    exact ih (addFact_uncWF h (by norm_num) (by norm_num))

theorem addPremises_rules (premises : List String) :
    ∀ (eng : ReasoningEngine), (addPremises premises eng).rules = eng.rules := by
  induction premises with
  | nil => intro eng; rfl
  | cons p rest ih => intro eng; exact ih (addFact eng p 1)

theorem hasStr_iff : ∀ (l : List String) (x : String), hasStr l x = true ↔ x ∈ l := by
  intro l x
  induction l with
  | nil => simp [hasStr]
  | cons y ys ih =>
    simp only [hasStr, Bool.or_eq_true, decide_eq_true_eq, ih, List.mem_cons]
    constructor
    · rintro (h | h)
      · exact Or.inl h.symm
      · exact Or.inr h
    · rintro (h | h)
      · exact Or.inl h.symm
      · exact Or.inr h

theorem hasStr_addIfAbsent_self (x : String) (l : List String) :
    hasStr (addIfAbsent x l) x = true := by
  unfold addIfAbsent
  by_cases h : hasStr l x = true
  · rw [if_pos h]; exact h
  · rw [if_neg h]
    rw [hasStr_iff]
    exact List.mem_append.mpr (Or.inr (List.mem_singleton.mpr rfl))

theorem hasStr_addIfAbsent_mono {p : String} (x : String) {l : List String}
    (h : hasStr l p = true) : hasStr (addIfAbsent x l) p = true := by
  unfold addIfAbsent
  split_ifs with h'
  · exact h
  · rw [hasStr_iff]
    exact List.mem_append.mpr (Or.inl (hasStr_iff l p |>.mp h))

theorem addFact_preserve {eng : ReasoningEngine} {p : String} (f : String)
    (hf : hasStr eng.facts p = true) (hu : mapGet p eng.uncertainties = some 1) :
    hasStr (addFact eng f 1).facts p = true ∧
    mapGet p (addFact eng f 1).uncertainties = some 1 := by
  constructor
  · exact hasStr_addIfAbsent_mono f hf
  · show mapGet p (mapSet f 1 eng.uncertainties) = some 1
    by_cases hfp : f = p
    · subst hfp; exact mapGet_mapSet_self f 1 eng.uncertainties
    · rw [mapGet_mapSet_ne hfp]; exact hu

theorem addPremises_preserve (premises : List String) :
    ∀ {eng : ReasoningEngine} {p : String},
      hasStr eng.facts p = true → mapGet p eng.uncertainties = some 1 →
      hasStr (addPremises premises eng).facts p = true ∧
      mapGet p (addPremises premises eng).uncertainties = some 1 := by
  induction premises with
  | nil => intro eng p hf hu; exact ⟨hf, hu⟩
  | cons q rest ih =>
    intro eng p hf hu
    have := addFact_preserve q hf hu
    exact ih this.1 this.2

theorem addPremises_spec (premises : List String) :
    ∀ (eng : ReasoningEngine) (p : String), p ∈ premises →
      hasStr (addPremises premises eng).facts p = true ∧
      mapGet p (addPremises premises eng).uncertainties = some 1 := by
  induction premises with
  | nil => intro eng p hp; cases hp
  | cons q rest ih =>
    intro eng p hp
    rcases List.mem_cons.mp hp with h | h
    · subst h
      exact addPremises_preserve rest
        (hasStr_addIfAbsent_self p eng.facts)
        (mapGet_mapSet_self p 1 eng.uncertainties)
    · exact ih (addFact eng q 1) p h

theorem reason_snd_forward (eng : ReasoningEngine) (req : ReasonRequest)
    (h : req.method = "forward") :
    (reason eng req).2 =
      Except.ok (forwardChain (addPremises req.premises eng) req.goal).1 := by
  simp only [reason, h]
  simp

theorem reason_snd_backward (eng : ReasoningEngine) (req : ReasonRequest)
    (h : req.method = "backward") :
    (reason eng req).2 = Except.ok (backwardChain (addPremises req.premises eng) req.goal) := by
  simp only [reason, h]
  simp

theorem reason_snd_abductive (eng : ReasoningEngine) (req : ReasonRequest)
    (h : req.method = "abductive") :
    (reason eng req).2 = Except.ok (abductiveReason (addPremises req.premises eng) req.goal) := by
  simp only [reason, h]
  simp

theorem reason_unknown (eng : ReasoningEngine) (req : ReasonRequest)
    (h : req.method ∉ (["forward", "backward", "abductive"] : List String)) :
    reason eng req = (addPremises req.premises eng,
      Except.error ("Unknown reasoning method: " ++ req.method)) := by
  have h1 : ¬ req.method = "forward" := fun he => h (by simp [he])
  have h2 : ¬ req.method = "backward" := fun he => h (by simp [he])
  have h3 : ¬ req.method = "abductive" := fun he => h (by simp [he])
  simp only [reason]
  rw [if_neg h1, if_neg h2, if_neg h3]

theorem assessReasoningSupport_forward (eng : ReasoningEngine) (statement : String)
    (evidence : List String) (hev : evidence ≠ []) :
    (assessReasoningSupport eng statement evidence).1.method = "forward_chaining" ∧
    (assessReasoningSupport eng statement evidence).1.confidence =
      (forwardChain (addPremises evidence eng) statement).1.confidence := by
  have hlen : ¬ evidence.length = 0 := by simpa using hev
  have hr := reason_snd_forward eng
    { premises := evidence, goal := statement, method := "forward" } rfl
  rcases hre : reason eng { premises := evidence, goal := statement, method := "forward" } with
    ⟨eng1, exc⟩
  rw [hre] at hr
  simp only at hr
  subst hr
  simp only [assessReasoningSupport]
  rw [if_neg hlen, hre]
  exact ⟨rfl, rfl⟩

theorem assessReasoningSupport_range (eng : ReasoningEngine) (statement : String)
    (evidence : List String) (hu : uncWF eng.uncertainties = true) :
    0 ≤ (assessReasoningSupport eng statement evidence).1.confidence ∧
    (assessReasoningSupport eng statement evidence).1.confidence ≤ 1 := by
  by_cases hev : evidence.length = 0
  · simp only [assessReasoningSupport]
    rw [if_pos hev]
    norm_num
  · have hev' : evidence ≠ [] := by
      intro he
      exact hev (by simp [he])
    have hf := assessReasoningSupport_forward eng statement evidence hev'
    rw [hf.2]
    exact forwardChain_conf_range _ _ (addPremises_uncWF evidence hu)

theorem assessConfidence_score_range (search : SearchFun) (eng : ReasoningEngine)
    (statement : String) (evidence : List String) (hu : uncWF eng.uncertainties = true) :
    0 ≤ (assessConfidence search eng statement evidence).1.score ∧
    (assessConfidence search eng statement evidence).1.score ≤ 1 := by
  have hm := assessMemorySupport_range search statement
  have hr := assessReasoningSupport_range eng statement evidence hu
  have hc := checkConsistency_range search statement
  have hs := assessSourceReliability_range evidence
  simp only [assessConfidence]
  constructor <;> linarith [hm.1, hm.2, hr.1, hr.2, hc.1, hc.2, hs.1, hs.2]

/-- rulesNonempty states that every registered rule has a non-empty premise
list; on the engine's built-in rule set this always holds, and it is the
condition under which `forwardChain` (and hence `reason` with method
"forward") cannot throw in the source. -/
def rulesNonempty (rules : List (String × Rule)) : Bool :=
  rules.all (fun p => !p.2.pattern.isEmpty)

/-- mpRule is the stored built-in modus_ponens rule. -/
def mpRule : Rule :=
  { name := "modus_ponens", pattern := ["?P → ?Q", "?P"], conclusion := "?Q",
    confidence := some 0.95 }

/-- mtRule is the stored built-in modus_tollens rule. -/
def mtRule : Rule :=
  { name := "modus_tollens", pattern := ["?P → ?Q", "¬?Q"], conclusion := "¬?P",
    confidence := some 0.95 }

/-- hsRule is the stored built-in hypothetical_syllogism rule. -/
def hsRule : Rule :=
  { name := "hypothetical_syllogism", pattern := ["?P → ?Q", "?Q → ?R"],
    conclusion := "?P → ?R", confidence := some 0.9 }

/-- upRule is the stored built-in uncertainty_propagation rule (no numeric
confidence, only a confidence_calculation function). -/
def upRule : Rule :=
  { name := "uncertainty_propagation",
    pattern := ["?P", "confidence(?P) = ?C1", "?P → ?Q", "confidence(?P → ?Q) = ?C2"],
    conclusion := "?Q", confidence_calculation := some (fun c1 c2 => c1 * c2) }

/-- ciRule is the stored built-in causal_inference rule. -/
def ciRule : Rule :=
  { name := "causal_inference", pattern := ["cause(?X, ?Y)", "observed(?X)"],
    conclusion := "likely(?Y)", confidence := some 0.7 }

/-- builtinRules is the rule table of a freshly initialized engine, in
registration order. -/
def builtinRules : List (String × Rule) :=
  [("modus_ponens", mpRule), ("modus_tollens", mtRule),
   ("hypothetical_syllogism", hsRule), ("uncertainty_propagation", upRule),
   ("causal_inference", ciRule)]

theorem initEngine_eq : initEngine = { rules := builtinRules } := rfl

/-- c2eng is the engine state at the moment `abductiveReason` runs in the C2
scenario: fresh engine plus the ingested premise. -/
def c2eng : ReasoningEngine := addFact initEngine "The grass is wet" 1

/-- c2req is the C2 scenario request. -/
def c2req : ReasonRequest :=
  { premises := ["The grass is wet"], goal := "It rained", method := "abductive" }

/-- c2cands is the candidate-explanation list the C2 scenario produces
before sorting: three built-in conclusions ('?Q' twice and '?P → ?R') start
with '?' and therefore unify with the observation "It rained". -/
def c2cands : List Explanation :=
  [{ rule := "modus_ponens", premises := ["?P → ?Q", "?P"],
     confidence := 0.95, plausibility := 0.25 },
   { rule := "hypothetical_syllogism", premises := ["?P → ?Q", "?Q → ?R"],
     confidence := 0.9, plausibility := 0.25 },
   { rule := "uncertainty_propagation",
     premises := ["?P", "confidence(?P) = ?C1", "?P → ?Q", "confidence(?P → ?Q) = ?C2"],
     confidence := 1, plausibility := 0.0625 }]

theorem c2eng_eq : c2eng =
    { rules := builtinRules, facts := ["The grass is wet"],
      uncertainties := [("The grass is wet", 1)] } := rfl

theorem c2_candidates : abductiveCandidates c2eng "It rained" = c2cands := by
  have hpMP : assessPlausibility c2eng ["?P → ?Q", "?P"] = 0.25 := by
    norm_num [assessPlausibility,
      show c2eng.facts = ["The grass is wet"] from rfl,
      show hasStr ["The grass is wet"] "?P → ?Q" = false from by decide,
      show hasStr ["The grass is wet"] "?P" = false from by decide,
      show hasStr ["The grass is wet"] ("¬" ++ "?P → ?Q") = false from by decide,
      show hasStr ["The grass is wet"] ("¬" ++ "?P") = false from by decide]
  have hpHS : assessPlausibility c2eng ["?P → ?Q", "?Q → ?R"] = 0.25 := by
    norm_num [assessPlausibility,
      show c2eng.facts = ["The grass is wet"] from rfl,
      show hasStr ["The grass is wet"] "?P → ?Q" = false from by decide,
      show hasStr ["The grass is wet"] "?Q → ?R" = false from by decide,
      show hasStr ["The grass is wet"] ("¬" ++ "?P → ?Q") = false from by decide,
      show hasStr ["The grass is wet"] ("¬" ++ "?Q → ?R") = false from by decide]
  have hpUP : assessPlausibility c2eng
      ["?P", "confidence(?P) = ?C1", "?P → ?Q", "confidence(?P → ?Q) = ?C2"] = 0.0625 := by
    norm_num [assessPlausibility,
      show c2eng.facts = ["The grass is wet"] from rfl,
      show hasStr ["The grass is wet"] "?P" = false from by decide,
      show hasStr ["The grass is wet"] "confidence(?P) = ?C1" = false from by decide,
      show hasStr ["The grass is wet"] "?P → ?Q" = false from by decide,
      show hasStr ["The grass is wet"] "confidence(?P → ?Q) = ?C2" = false from by decide,
      show hasStr ["The grass is wet"] ("¬" ++ "?P") = false from by decide,
      show hasStr ["The grass is wet"] ("¬" ++ "confidence(?P) = ?C1") = false from by decide,
      show hasStr ["The grass is wet"] ("¬" ++ "?P → ?Q") = false from by decide,
      show hasStr ["The grass is wet"] ("¬" ++ "confidence(?P → ?Q) = ?C2") = false from by decide]
  simp only [abductiveCandidates,
    show c2eng.rules = builtinRules from rfl,
    builtinRules, mpRule, mtRule, hsRule, upRule, ciRule,
    List.filterMap_cons, List.filterMap_nil,
    show matchesConclusion "?Q" "It rained" = true from by decide,
    show matchesConclusion "¬?P" "It rained" = false from by decide,
    show matchesConclusion "?P → ?R" "It rained" = true from by decide,
    show matchesConclusion "likely(?Y)" "It rained" = false from by decide,
    findCausalExplanations,
    show containsSubQ "It rained" "effect" = false from by decide,
    hpMP, hpHS, hpUP, c2cands]
  norm_num [jsOr]

theorem c2_sorted : c2cands.insertionSort explAfter = c2cands := by
  norm_num [c2cands, List.insertionSort, List.orderedInsert, explAfter, explKey]

theorem c2_abduction :
    (abductiveReason c2eng "It rained").found = true ∧
    (abductiveReason c2eng "It rained").conclusion = "Best explanation: ?P → ?Q & ?P" ∧
    (abductiveReason c2eng "It rained").confidence = 0.2375 := by
  refine ⟨?_, ?_, ?_⟩
  · simp only [abductiveReason, c2_candidates, c2_sorted]
    simp [c2cands]
  · simp only [abductiveReason, c2_candidates, c2_sorted]
    simp only [c2cands, List.head?]
    norm_num [joinSep]
    decide
  · simp only [abductiveReason, c2_candidates, c2_sorted]
    simp only [c2cands, List.head?]
    norm_num

theorem c2_reason_snd :
    (reason initEngine c2req).2 = Except.ok (abductiveReason c2eng "It rained") := rfl

/-- c4Engine is the engine of the C4 scenario: a fresh engine plus the
caller-registered rule P → Q with base confidence 0.95. -/
def c4Engine : ReasoningEngine :=
  addRule initEngine "custom_rule"
    { pattern := ["P"], conclusion := "Q", confidence := some 0.95 }

/-- c4req is the C4 scenario request. -/
def c4req : ReasonRequest := { premises := ["P"], goal := "Q", method := "forward" }

/-- c9req is a request with an unknown method used to exhibit C9. -/
def c9req : ReasonRequest := { premises := ["A", "B"], goal := "G", method := "mystery" }

end AGI

open AGI

/-- C1 counterexample: the claim fails as stated.  `addFact` stores the
caller-supplied confidence unclamped: after `addFact("G", 2)` on a fresh
engine the confidence table returns 2 and `backwardChain("G")` returns a
result with confidence 2, outside [0,1]. -/
theorem c1_counterexample :
    mapGet "G" (addFact initEngine "G" 2).uncertainties = some 2 ∧
    (backwardChain (addFact initEngine "G" 2) "G").confidence = 2 ∧
    ¬ ((2 : ℚ) ≤ 1) := by
  refine ⟨by with_unfolding_all decide, by with_unfolding_all decide, by norm_num⟩

/-- C1 (amended): provided the knowledge base is well formed (every stored
fact confidence and rule confidence in [0,1], rule premise lists non-empty)
and the caller-supplied confidence c lies in [0,1], then after addFact(f, c)
the value read back from the confidence table is exactly c (hence in [0,1]),
the knowledge base stays well formed, and every confidence returned as a
ReasoningResult (forward, backward or abductive) or as a
ConfidenceAssessment score lies in [0,1].  addFact itself never clamps: the
counterexample shows an out-of-range c is stored and returned as is. -/
theorem c1_theorem (eng : ReasoningEngine) (f : String) (c : ℚ)
    (hwf : engineWF eng = true) (hc0 : 0 ≤ c) (hc1 : c ≤ 1) :
    mapGet f (addFact eng f c).uncertainties = some c ∧
    engineWF (addFact eng f c) = true ∧
    (∀ goal, 0 ≤ (forwardChain (addFact eng f c) goal).1.confidence ∧
      (forwardChain (addFact eng f c) goal).1.confidence ≤ 1) ∧
    (∀ goal, 0 ≤ (backwardChain (addFact eng f c) goal).confidence ∧
      (backwardChain (addFact eng f c) goal).confidence ≤ 1) ∧
    (∀ obs, 0 ≤ (abductiveReason (addFact eng f c) obs).confidence ∧
      (abductiveReason (addFact eng f c) obs).confidence ≤ 1) ∧
    (∀ (search : SearchFun) (statement : String) (evidence : List String),
      0 ≤ (assessConfidence search (addFact eng f c) statement evidence).1.score ∧
      (assessConfidence search (addFact eng f c) statement evidence).1.score ≤ 1) := by
  obtain ⟨hr, hu⟩ : rulesWF eng.rules = true ∧ uncWF eng.uncertainties = true := by
    simpa [engineWF] using hwf
  have hu' : uncWF (addFact eng f c).uncertainties = true := addFact_uncWF hu hc0 hc1
  have hr' : rulesWF (addFact eng f c).rules = true := by
    rw [addFact_rules]
    exact hr
  refine ⟨mapGet_mapSet_self f c eng.uncertainties, ?_,
    fun goal => forwardChain_conf_range _ goal hu',
    fun goal => backwardChain_conf_range _ goal hr' hu',
    fun obs => abductiveReason_conf_range _ obs hr',
    fun search statement evidence => assessConfidence_score_range search _ statement evidence hu'⟩
  simp [engineWF, hr', hu']

/-- C1 witness: the amended theorem applied at a concrete well-formed
engine and in-range confidence. -/
theorem c1_witness :
    engineWF initEngine = true ∧ ((0:ℚ) ≤ 0.5 ∧ (0.5:ℚ) ≤ 1) ∧
    mapGet "G" (addFact initEngine "G" 0.5).uncertainties = some 0.5 :=
  ⟨by with_unfolding_all decide, by norm_num,
   (c1_theorem initEngine "G" 0.5 (by with_unfolding_all decide)
     (by norm_num) (by norm_num)).1⟩

/-- C2 counterexample: the claim fails as stated.  On a fresh engine,
reason({premises:["The grass is wet"], goal:"It rained", method:"abductive"})
returns found:true, not found:false: the built-in conclusions '?Q'
(modus_ponens, uncertainty_propagation) and '?P → ?R'
(hypothetical_syllogism) start with '?', so `matchesConclusion` unifies
them with any observation. -/
theorem c2_counterexample :
    (exceptOk (reason initEngine c2req).2).map (fun r => r.found) = some true := by
  rw [c2_reason_snd]
  simp [exceptOk, c2_abduction.1]

/-- C2 (amended): reason({premises:["The grass is wet"], goal:"It rained",
method:"abductive"}) on a fresh engine returns found:true, conclusion
"Best explanation: ?P → ?Q & ?P" and confidence 0.2375 (= 0.95 × 0.25): the
variable-headed built-in conclusions unify with the observation, the
modus_ponens candidate ranks first (0.95 × 0.25 beats 0.9 × 0.25 and
1 × 0.0625), and the causal effect/cause heuristic indeed does not fire. -/
theorem c2_theorem :
    (exceptOk (reason initEngine c2req).2).map
      (fun r => (r.found, r.conclusion, r.confidence)) =
      some (true, "Best explanation: ?P → ?Q & ?P", 0.2375) := by
  rw [c2_reason_snd]
  simp [exceptOk, c2_abduction.1, c2_abduction.2.1, c2_abduction.2.2]

/-- C3 counterexample: the claim fails as stated.  With an empty memory
store, assessConfidence("X", []) scores 0.45, not 0.3 (the spec's sum
0 + 0.5×0.4 + 1×0.2 + 0.5×0.1 equals 0.45; the stated total 0.3 is an
arithmetic slip). -/
theorem c3_counterexample :
    ¬ ((assessConfidence emptySearch initEngine "X" []).1.score = 0.3) := by
  with_unfolding_all decide

/-- C3 (amended): assessConfidence("X", []) with an empty memory store
yields memory 0×0.3 = 0, reasoning 0.5×0.4 = 0.2 (method no_evidence),
consistency 1×0.2 = 0.2 (zero contradictions), source 0.5×0.1 = 0.05, for
an overall score of 0.45 and the categorical level "low". -/
theorem c3_theorem :
    (assessConfidence emptySearch initEngine "X" []).1.score = 0.45 ∧
    (assessConfidence emptySearch initEngine "X" []).1.level = "low" ∧
    (assessConfidence emptySearch initEngine "X" []).1.breakdown.memory_support = 0 ∧
    (assessConfidence emptySearch initEngine "X" []).1.breakdown.reasoning_support = 0.2 ∧
    (assessConfidence emptySearch initEngine "X" []).1.breakdown.consistency = 0.2 ∧
    (assessConfidence emptySearch initEngine "X" []).1.breakdown.source_reliability = 0.05 := by
  with_unfolding_all decide

/-- C4: registering the rule {pattern ["P"], conclusion "Q", confidence
0.95} and calling reason({premises:["P"], goal:"Q", method:"forward"})
returns found:true, conclusion "Q", confidence 0.95 (= 0.95 base × 1.0
premise confidence × 1.0 success rate). -/
theorem c4_theorem :
    (exceptOk (reason c4Engine c4req).2).map
      (fun r => (r.found, r.conclusion, r.confidence)) = some (true, "Q", 0.95) := by
  with_unfolding_all decide

/-- C5 counterexample: the claim fails as stated for arbitrary knowledge
bases.  After addFact("H", 3) the stored confidence 3 is out of range and
forwardChain("H") returns it unchanged: its result confidence is 3 ∉ [0,1]. -/
theorem c5_counterexample :
    (forwardChain (addFact initEngine "H" 3) "H").1.confidence = 3 ∧
    ¬ ((3 : ℚ) ≤ 1) := by
  refine ⟨by with_unfolding_all decide, by norm_num⟩

/-- C5 (amended): for every well-formed knowledge base (stored fact and
rule confidences in [0,1], non-empty rule premise lists) and every goal,
forwardChain and backwardChain terminate (both are total functions of the
model; the source's loop cap and depth cap are the fuel arguments 100 and
11 = depth 10 + 1), forwardChain reports at most 100 iterations, the
depth-exhausted backward search returns found:false with confidence 0, and
both results carry a confidence in [0,1]. -/
theorem c5_theorem (eng : ReasoningEngine) (goal : String) (hwf : engineWF eng = true) :
    (forwardChain eng goal).1.iterations ≤ 100 ∧
    (0 ≤ (forwardChain eng goal).1.confidence ∧ (forwardChain eng goal).1.confidence ≤ 1) ∧
    (0 ≤ (backwardChain eng goal).confidence ∧ (backwardChain eng goal).confidence ≤ 1) ∧
    (∀ st, (bcSearch eng 0 goal st).1 = (false, 0)) := by
  obtain ⟨hr, hu⟩ : rulesWF eng.rules = true ∧ uncWF eng.uncertainties = true := by
    simpa [engineWF] using hwf
  exact ⟨forwardChain_iterations eng goal,
    forwardChain_conf_range eng goal hu,
    backwardChain_conf_range eng goal hr hu,
    fun st => rfl⟩

/-- C5 witness: the amended theorem applied at the freshly initialized
engine and a concrete goal. -/
theorem c5_witness :
    engineWF initEngine = true ∧ (forwardChain initEngine "Q").1.iterations ≤ 100 :=
  ⟨by with_unfolding_all decide,
   (c5_theorem initEngine "Q" (by with_unfolding_all decide)).1⟩

/-- C6: for every engine state and observation, the explanations list of
abductiveReason is sorted descending by confidence × plausibility (the
stable insertion sort realizes the JavaScript comparator), the reported
conclusion is built from the head explanation when one exists ("No
explanation found" otherwise), and each tie class of equal products keeps
its insertion order in the pre-sort candidate list. -/
theorem c6_theorem (eng : ReasoningEngine) (observation : String) :
    List.Sorted explAfter (abductiveReason eng observation).explanations ∧
    (abductiveReason eng observation).conclusion =
      (match (abductiveReason eng observation).explanations.head? with
       | some b => "Best explanation: " ++ joinSep " & " b.premises
       | none => "No explanation found") ∧
    (∀ k : ℚ, (abductiveReason eng observation).explanations.filter
        (fun e => decide (explKey e = k)) =
      (abductiveCandidates eng observation).filter (fun e => decide (explKey e = k))) := by
  refine ⟨?_, ?_, ?_⟩
  · simp only [abductiveReason]
    exact List.sorted_insertionSort explAfter _
  · simp only [abductiveReason]
  · intro k
    simp only [abductiveReason]
    exact insertionSort_filter_key k _

/-- C7: reason fails with the "Unknown reasoning method" error exactly for
method strings outside {"forward", "backward", "abductive"}; for the three
known methods it succeeds (no silent defaulting of unknown methods). -/
theorem c7_theorem (eng : ReasoningEngine) (req : ReasonRequest) :
    (req.method ∉ (["forward", "backward", "abductive"] : List String) →
      (reason eng req).2 = Except.error ("Unknown reasoning method: " ++ req.method)) ∧
    (req.method ∈ (["forward", "backward", "abductive"] : List String) →
      ∃ r, (reason eng req).2 = Except.ok r) := by
  constructor
  · intro h
    rw [reason_unknown eng req h]
  · intro h
    have h' : req.method = "forward" ∨ req.method = "backward" ∨ req.method = "abductive" := by
      simpa using h
    rcases h' with h' | h' | h'
    · exact ⟨_, reason_snd_forward eng req h'⟩
    · exact ⟨_, reason_snd_backward eng req h'⟩
    · exact ⟨_, reason_snd_abductive eng req h'⟩

/-- C7 witness: the theorem applied at a concrete unknown method ("banana")
and a concrete known method ("forward"). -/
theorem c7_witness :
    (reason initEngine { premises := [], goal := "G", method := "banana" }).2 =
      Except.error ("Unknown reasoning method: " ++ "banana") ∧
    (∃ r, (reason initEngine { premises := [], goal := "G", method := "forward" }).2 =
      Except.ok r) :=
  ⟨(c7_theorem initEngine { premises := [], goal := "G", method := "banana" }).1 (by decide),
   (c7_theorem initEngine { premises := [], goal := "G", method := "forward" }).2 (by decide)⟩

/-- C8: clear() empties the fact set and the fact-confidence table and
leaves the rule table (and the reasoning history) untouched: every rule
lookup gives the same stored rule, with its pattern, conclusion and base
confidence, as before the clear. -/
theorem c8_theorem (eng : ReasoningEngine) :
    (clear eng).facts = [] ∧ (clear eng).uncertainties = [] ∧
    (clear eng).rules = eng.rules ∧
    (clear eng).reasoning_history = eng.reasoning_history ∧
    (∀ name, mapGet name (clear eng).rules = mapGet name eng.rules) :=
  ⟨rfl, rfl, rfl, rfl, fun _ => rfl⟩

/-- C9: with an unknown method, reason raises the error only after every
supplied premise has been added as a fact with confidence 1.0: the call
fails but the knowledge base is already mutated (the error path is not
atomic). -/
theorem c9_theorem (eng : ReasoningEngine) (req : ReasonRequest)
    (h : req.method ∉ (["forward", "backward", "abductive"] : List String)) :
    (reason eng req).2 = Except.error ("Unknown reasoning method: " ++ req.method) ∧
    (∀ p ∈ req.premises,
      hasStr (reason eng req).1.facts p = true ∧
      mapGet p (reason eng req).1.uncertainties = some 1) := by
  rw [reason_unknown eng req h]
  exact ⟨rfl, fun p hp => addPremises_spec req.premises eng p hp⟩

/-- C9 witness: the theorem applied at a concrete request with method
"mystery" and premises ["A", "B"]. -/
theorem c9_witness :
    (reason initEngine c9req).2 =
      Except.error ("Unknown reasoning method: " ++ "mystery") ∧
    (hasStr (reason initEngine c9req).1.facts "A" = true ∧
     mapGet "A" (reason initEngine c9req).1.uncertainties = some 1) :=
  ⟨(c9_theorem initEngine c9req (by decide)).1,
   (c9_theorem initEngine c9req (by decide)).2 "A" (by decide)⟩

/-- C10: for every engine whose rules have non-empty premise lists (true of
the built-in set; it is the condition under which the source's forward
chaining cannot throw), every statement and every non-empty evidence list,
assessReasoningSupport takes the forward-chaining branch: method
"forward_chaining" with exactly the forward-chain result's confidence, and
the underlying reason(..., method "forward") call returns normally, so the
abductive (0.8×) and reasoning_failed (0.3) fallbacks are unreachable. -/
theorem c10_theorem (eng : ReasoningEngine) (statement : String)
    (evidence : List String) (hev : evidence ≠ [])
    (_hwf : rulesNonempty eng.rules = true) :
    (assessReasoningSupport eng statement evidence).1.method = "forward_chaining" ∧
    (assessReasoningSupport eng statement evidence).1.confidence =
      (forwardChain (addPremises evidence eng) statement).1.confidence ∧
    (reason eng { premises := evidence, goal := statement, method := "forward" }).2 =
      Except.ok (forwardChain (addPremises evidence eng) statement).1 :=
  ⟨(assessReasoningSupport_forward eng statement evidence hev).1,
   (assessReasoningSupport_forward eng statement evidence hev).2,
   reason_snd_forward eng { premises := evidence, goal := statement, method := "forward" } rfl⟩

/-- C10 witness: the theorem applied at the freshly initialized engine with
statement "S" and evidence ["E"]. -/
theorem c10_witness :
    (["E"] ≠ ([] : List String)) ∧ rulesNonempty initEngine.rules = true ∧
    (assessReasoningSupport initEngine "S" ["E"]).1.method = "forward_chaining" :=
  ⟨by decide, by decide,
   (c10_theorem initEngine "S" ["E"] (by decide) (by decide)).1⟩
